import Mathlib

/-!
# C3BT: Compact Clustered Crit-Bit Tree — shallow embedding

A shallow embedding of `src/c3bt.c` (Compact Clustered Crit-Bit Tree).  Cells
live in an arena indexed by `Nat` (modelling heap pointers); a cell stores its
parent back-reference, its node count (the `pnc` field of the C source, with
the pointer and the packed 3-bit count split into two fields), an array of 8
crit-bit nodes and an array of 9 external pointers.  Child references are the
tagged bytes of the source (`0x80` = user-object pointer index, `0x40` =
sub-cell pointer index, values below 8 = in-cell node index, `0x3F` = vacant).

The C `bitops` callback takes a request integer whose sign selects between
"extract bit i" (`req >= 0`) and "find first differing bit" (`req =
-(key_nbits+1)`); it is modelled as a structure with the two modes as separate
fields (`bit`, `diff`), with `diff` returning `none` for the C return value
`-1`.  User objects are identified with their keys (the tree stores only the
record address and reads the key at a fixed offset; records play no other
role).  C loops whose termination depends on heap well-formedness take an
explicit fuel argument and return `none` when it runs out; reads that the C
performs through untyped pointers return junk-free defaults through `Option`.
-/

namespace C3BT

/-! ## Tags and constants (c3bt.c lines 54-62) -/

def CBIT_MAX : Nat := 255
def INVALID_NODE : Nat := 0x3F
def NODES_PER_CELL : Nat := 8
def CHILD_CELL_BIT : Nat := 0x40
def CHILD_UOBJ_BIT : Nat := 0x80
def INDEX_MASK : Nat := 0x0F
def FLAGS_MASK : Nat := CHILD_CELL_BIT ||| CHILD_UOBJ_BIT

def CHILD_IS_NODE (x : Nat) : Bool := x < 8
def CHILD_IS_CELL (x : Nat) : Bool := x &&& CHILD_CELL_BIT != 0
def CHILD_IS_UOBJ (x : Nat) : Bool := x &&& CHILD_UOBJ_BIT != 0

/-! ## Data model -/

/-- A crit-bit node: the tested bit index and the two tagged child bytes
(`child false` = `child[0]`, `child true` = `child[1]`). -/
structure Node where
  cbit : Nat
  child : Bool → Nat

instance : Inhabited Node := ⟨⟨0, fun _ => INVALID_NODE⟩⟩

/-- An external pointer slot of a cell.  In C this is a raw `c3bt_cell *`
which may actually store a user-object pointer; the interpretation is fixed
by the tag of the child byte referencing the slot.  `reserved` is the
sentinel `(c3bt_cell*)1` written by `cell_alloc_ptr`. -/
inductive PSlot (κ : Type) where
  | free
  | reserved
  | uobj (k : κ)
  | cell (id : Nat)

instance : Inhabited (PSlot κ) := ⟨.free⟩

def PSlot.isFree : PSlot κ → Bool
  | .free => true
  | _ => false

def PSlot.asUobj : PSlot κ → Option κ
  | .uobj k => some k
  | _ => none

def PSlot.asCell : PSlot κ → Option Nat
  | .cell i => some i
  | _ => none

/-- A 64-byte C3BT cell.  `parent`/`ncount` split the packed `pnc` field;
`N`/`P` are total functions (indices ≥ 8 resp. ≥ 9 are junk slots that a
well-formed execution never reads). -/
structure Cell (κ : Type) where
  parent : Option Nat
  ncount : Nat
  N : Nat → Node
  P : Nat → PSlot κ

instance : Inhabited (Cell κ) := ⟨⟨none, 1, fun _ => default, fun _ => .free⟩⟩

/-- The two request modes of the C `bitops` callback for a fixed key width:
`bit i k` is bit `i` of key `k` (MSB-first), `diff k1 k2` is the index of the
first differing bit or `none` (the C return value `-1`). -/
structure Bitops (κ : Type) where
  bit : Nat → κ → Bool
  diff : κ → κ → Option Nat

/-- The tree: root cell id, cell arena, allocation cursor, object count, and
the outcomes of future `malloc` calls (`allocs` head = next call; an empty
list means every allocation succeeds). -/
structure Tree (κ : Type) where
  root : Option Nat
  cells : Nat → Option (Cell κ)
  nextCell : Nat
  n_objects : Nat
  allocs : List Bool

/-- `c3bt_init`: an empty tree. -/
def Tree.init (κ : Type) : Tree κ :=
  ⟨none, fun _ => none, 0, 0, []⟩

/-- A cursor: cell pointer, node index, child side. -/
structure Cursor where
  cell : Option Nat
  nid : Nat
  cid : Bool

instance : Inhabited Cursor := ⟨⟨none, 0, false⟩⟩

/-! ## Arena and cell helpers -/

/-- Dereference a cell pointer (a well-formed execution only dereferences
live cells; a dead id yields the default junk cell). -/
def Tree.cellAt (T : Tree κ) (id : Nat) : Cell κ :=
  (T.cells id).getD default

def Tree.setCell (T : Tree κ) (id : Nat) (c : Cell κ) : Tree κ :=
  {T with cells := Function.update T.cells id (some c)}

def Tree.updCell (T : Tree κ) (id : Nat) (f : Cell κ → Cell κ) : Tree κ :=
  T.setCell id (f (T.cellAt id))

/-- `cell_free`. -/
def Tree.freeCell (T : Tree κ) (id : Nat) : Tree κ :=
  {T with cells := Function.update T.cells id none}

def Cell.setN (c : Cell κ) (i : Nat) (nd : Node) : Cell κ :=
  {c with N := Function.update c.N i nd}

def Cell.setChild (c : Cell κ) (i : Nat) (b : Bool) (x : Nat) : Cell κ :=
  c.setN i ⟨(c.N i).cbit, Function.update (c.N i).child b x⟩

def Cell.setCbit (c : Cell κ) (i : Nat) (v : Nat) : Cell κ :=
  c.setN i ⟨v, (c.N i).child⟩

def Cell.setP (c : Cell κ) (i : Nat) (s : PSlot κ) : Cell κ :=
  {c with P := Function.update c.P i s}

/-- `cell_ncount`. -/
def cell_ncount (c : Cell κ) : Nat := c.ncount

/-- `cell_node_is_vacant`. -/
def cell_node_is_vacant (c : Cell κ) (nid : Nat) : Bool :=
  (c.N nid).child false == INVALID_NODE

/-- `cell_free_node`. -/
def cell_free_node (c : Cell κ) (nid : Nat) : Cell κ :=
  c.setChild nid false INVALID_NODE

/-- `cell_free_ptr`. -/
def cell_free_ptr (c : Cell κ) (pid : Nat) : Cell κ :=
  c.setP pid .free

/-- `cell_alloc_node`: index of the first vacant node slot, scanning from 1
(the C loop is unbounded; a full cell yields the junk index 8). -/
def cell_alloc_node_idx (c : Cell κ) : Nat :=
  (((List.range NODES_PER_CELL).drop 1).find? (fun i => cell_node_is_vacant c i)).getD
    NODES_PER_CELL

def cell_alloc_node (c : Cell κ) : Nat × Cell κ :=
  let i := cell_alloc_node_idx c
  (i, c.setChild i false 0)

/-- `cell_alloc_ptr`: index of the first null pointer slot.  The C loop
`for (i = 0; cell->P[i] != NULL; i++)` has no bound: when all 9 proper slots
are taken it keeps scanning past the end of the array.  The model gives the
scan the junk space beyond index 8 (all slots `free` unless previously
written), bounded at 64 to stay structural. -/
def cell_alloc_ptr_scan (c : Cell κ) : Nat → Nat → Nat
  | 0, i => i
  | fuel + 1, i => if (c.P i).isFree then i else cell_alloc_ptr_scan c fuel (i + 1)

def cell_alloc_ptr_idx (c : Cell κ) : Nat :=
  cell_alloc_ptr_scan c 64 0

def cell_alloc_ptr (c : Cell κ) : Nat × Cell κ :=
  let i := cell_alloc_ptr_idx c
  (i, c.setP i .reserved)

/-- The all-vacant zeroed cell produced by `cell_malloc`. -/
def freshCell (κ : Type) : Cell κ :=
  ⟨none, 1, fun _ => ⟨0, fun b => bif b then 0 else INVALID_NODE⟩, fun _ => .free⟩

/-- `cell_malloc`: consume one allocation outcome; on success install a fresh
cell at the next arena index. -/
def cell_malloc (T : Tree κ) : Option Nat × Tree κ :=
  let ok := T.allocs.headD true
  let T' : Tree κ := {T with allocs := T.allocs.tail}
  if ok then
    (some T'.nextCell,
      {T' with cells := Function.update T'.cells T'.nextCell (some (freshCell κ)),
               nextCell := T'.nextCell + 1})
  else (none, T')

/-- The (node, side) scan order used by the C double loops
`for (n ...) for (c = 0; c < 2; c++)`. -/
def scanPairs (lo hi : Nat) : List (Nat × Bool) :=
  (List.range' lo (hi - lo)).foldr (fun n acc => (n, false) :: (n, true) :: acc) []

/-- `cell_node_parent`: the packed `parent_node_id<<1|side` of the unique
in-cell parent of `node` (the C fall-off-the-end value is 18). -/
def cell_node_parent (c : Cell κ) (node : Nat) : Nat :=
  ((scanPairs 0 NODES_PER_CELL).find?
      (fun nc => ¬ cell_node_is_vacant c nc.1 && (c.N nc.1).child nc.2 == node)).map
    (fun nc => nc.1 <<< 1 ||| (bif nc.2 then 1 else 0)) |>.getD 18

/-! ## Lookup (tree_lookup, c3bt.c lines 387-424) -/

/-- The inner `while (CHILD_IS_NODE(nid))` loop of `tree_lookup`: key-guided
descent inside one cell.  Returns the terminating child byte plus the final
`(loc.nid, loc.cid)`. -/
def cell_descend (B : Bitops κ) (c : Cell κ) (key : κ) :
    Nat → Nat → Nat → Bool → Option (Nat × Nat × Bool)
  | 0, _, _, _ => none
  | fuel + 1, nid, lnid, lcid =>
    if CHILD_IS_NODE nid then
      let b := B.bit (c.N nid).cbit key
      cell_descend B c key fuel ((c.N nid).child b) nid b
    else some (nid, lnid, lcid)

/-- The outer `while (cell)` loop of `tree_lookup`. -/
def tree_lookup_go (B : Bitops κ) (T : Tree κ) (key : κ) :
    Nat → Option Nat → Cursor → Option (Option κ × Cursor)
  | 0, _, _ => none
  | _ + 1, none, loc => some (none, loc)
  | fuel + 1, some cid, loc =>
    let c := T.cellAt cid
    match cell_descend B c key (NODES_PER_CELL + 1) 0 loc.nid loc.cid with
    | none => none
    | some (x, nid, b) =>
      let loc : Cursor := ⟨some cid, nid, b⟩
      if CHILD_IS_UOBJ x then some ((c.P (x &&& INDEX_MASK)).asUobj, loc)
      else if CHILD_IS_CELL x then
        tree_lookup_go B T key fuel ((c.P (x &&& INDEX_MASK)).asCell) loc
      else none

/-- `tree_lookup`: unverified key-guided lookup, returning the candidate
record and the cursor. -/
def tree_lookup (B : Bitops κ) (T : Tree κ) (key : κ) (fuel : Nat) :
    Option (Option κ × Cursor) :=
  let loc : Cursor := ⟨T.root, 0, false⟩
  if T.n_objects == 1 then
    some ((match T.root with
           | some r => (T.cellAt r).P 0
           | none => .free).asUobj, loc)
  else tree_lookup_go B T key fuel T.root loc

/-- `c3bt_locate`: lookup then verify exact key equality with the `diff`
probe, accepting only `-1`. -/
def c3bt_locate (B : Bitops κ) (T : Tree κ) (uobj : κ) (fuel : Nat) :
    Option (Option κ × Cursor) :=
  match tree_lookup B T uobj fuel with
  | none => none
  | some (none, loc) => some (none, loc)
  | some (some robj, loc) =>
    if B.diff uobj robj = none then some (some robj, loc) else some (none, loc)

/-- `c3bt_find_bits`-style find-by-value: lookup then verify by comparing the
stored key bytes with the query. -/
def c3bt_find [DecidableEq κ] (B : Bitops κ) (T : Tree κ) (key : κ) (fuel : Nat) :
    Option (Option κ) :=
  match tree_lookup B T key fuel with
  | none => none
  | some (none, _) => some none
  | some (some robj, _) => some (if robj = key then some robj else none)

/-! ## Ordered traversal (c3bt.c lines 572-702) -/

/-- The inner `while (CHILD_IS_NODE(nid))` loop of `tree_rush_down`: always
take the `dir` child.  Returns the terminating child byte and final node. -/
def rush_descend (c : Cell κ) (dir : Bool) :
    Nat → Nat → Nat → Option (Nat × Nat)
  | 0, _, _ => none
  | fuel + 1, nid, lnid =>
    if CHILD_IS_NODE nid then rush_descend c dir fuel ((c.N nid).child dir) nid
    else some (nid, lnid)

/-- `tree_rush_down`: go to the `dir`-extreme record below the start cursor. -/
def tree_rush_down (T : Tree κ) (start : Cursor) (dir : Bool) :
    Nat → Option (Option κ × Cursor)
  | 0 => none
  | fuel + 1 =>
    match start.cell with
    | none => some (none, {start with cid := dir})
    | some cid =>
      let c := T.cellAt cid
      match rush_descend c dir (NODES_PER_CELL + 1) start.nid start.nid with
      | none => none
      | some (x, nid) =>
        let cur : Cursor := ⟨some cid, nid, dir⟩
        if CHILD_IS_UOBJ x then some ((c.P (x &&& INDEX_MASK)).asUobj, cur)
        else if CHILD_IS_CELL x then
          match (c.P (x &&& INDEX_MASK)).asCell with
          | some sub => tree_rush_down T ⟨some sub, 0, dir⟩ dir fuel
          | none => some (none, ⟨none, 0, dir⟩)
        else none

/-- `tree_extreme`: common code of `c3bt_first` / `c3bt_last`. -/
def tree_extreme (T : Tree κ) (dir : Bool) (fuel : Nat) :
    Option (Option κ × Cursor) :=
  match T.root with
  | none => some (none, default)
  | some r =>
    let start : Cursor := ⟨some r, 0, false⟩
    if T.n_objects == 1 then some (((T.cellAt r).P 0).asUobj, start)
    else tree_rush_down T start dir fuel

def c3bt_first (T : Tree κ) (fuel : Nat) : Option (Option κ × Cursor) :=
  tree_extreme T false fuel

def c3bt_last (T : Tree κ) (fuel : Nat) : Option (Option κ × Cursor) :=
  tree_extreme T true fuel

/-- The in-cell search of the climb loop of `tree_step`: descend guided by
the current record's key, stopping at `cbit >= cur_cbit`, remembering the
deepest node departed on side `!= dir`. -/
def climb_descend (B : Bitops κ) (c : Cell κ) (key : κ) (cur_cbit : Nat)
    (dir : Bool) : Nat → Nat → Nat → Option Nat
  | 0, _, _ => none
  | fuel + 1, lower, upper =>
    if CHILD_IS_NODE lower then
      if (c.N lower).cbit ≥ cur_cbit then some upper
      else
        let b := B.bit (c.N lower).cbit key
        climb_descend B c key cur_cbit dir fuel ((c.N lower).child b)
          (if b ≠ dir then lower else upper)
    else some upper

/-- The cell-by-cell climb of `tree_step`: find the deepest ancestor node
from which the walk departs on side `!= dir`; `none` of the inner option
means the climb exhausted the root (the step returns NULL). -/
def step_climb (B : Bitops κ) (T : Tree κ) (key : κ) (cur_cbit : Nat)
    (dir : Bool) : Nat → Option Nat → Option (Option (Nat × Nat))
  | 0, _ => none
  | _ + 1, none => some none
  | fuel + 1, some cid =>
    let c := T.cellAt cid
    match climb_descend B c key cur_cbit dir (NODES_PER_CELL + 1) 0 INVALID_NODE with
    | none => none
    | some upper =>
      if upper ≠ INVALID_NODE then some (some (cid, upper))
      else step_climb B T key cur_cbit dir fuel c.parent

/-- The `down:` tail of `tree_step`. -/
def step_down (T : Tree κ) (cur : Cursor) (dir : Bool) (fuel : Nat) :
    Option (Option κ × Cursor) :=
  match cur.cell with
  | none => none
  | some cid =>
    let c := T.cellAt cid
    let lower := (c.N cur.nid).child dir
    if CHILD_IS_UOBJ lower then
      some ((c.P (lower &&& INDEX_MASK)).asUobj, {cur with cid := dir})
    else if CHILD_IS_CELL lower then
      match (c.P (lower &&& INDEX_MASK)).asCell with
      | some sub => tree_rush_down T ⟨some sub, 0, cur.cid⟩ (!dir) fuel
      | none => none
    else tree_rush_down T {cur with nid := lower} (!dir) fuel

/-- `tree_step`: step a cursor in direction `dir` (`c3bt_next` = `true`,
`c3bt_prev` = `false`). -/
def tree_step (B : Bitops κ) (T : Tree κ) (cur : Cursor) (dir : Bool)
    (fuel : Nat) : Option (Option κ × Cursor) :=
  if T.n_objects < 2 then some (none, cur)
  else if cur.cid ≠ dir then step_down T cur dir fuel
  else
    match cur.cell with
    | none => none
    | some cid =>
      let c := T.cellAt cid
      let cur_cbit := (c.N cur.nid).cbit
      match (c.P ((c.N cur.nid).child cur.cid &&& INDEX_MASK)).asUobj with
      | none => none
      | some uobj =>
        match step_climb B T uobj cur_cbit dir fuel (some cid) with
        | none => none
        | some none => some (none, cur)
        | some (some (acell, upper)) =>
          step_down T ⟨some acell, upper, cur.cid⟩ dir fuel

def c3bt_next (B : Bitops κ) (T : Tree κ) (cur : Cursor) (fuel : Nat) :
    Option (Option κ × Cursor) :=
  tree_step B T cur true fuel

def c3bt_prev (B : Bitops κ) (T : Tree κ) (cur : Cursor) (fuel : Nat) :
    Option (Option κ × Cursor) :=
  tree_step B T cur false fuel

/-- Collect the records visited by repeated `tree_step` calls after a first
record, `steps` bounding the number of iterations. -/
def iter_go (B : Bitops κ) (T : Tree κ) (dir : Bool) (fuel : Nat) :
    Nat → Cursor → Option (List κ)
  | 0, _ => none
  | steps + 1, cur =>
    match tree_step B T cur dir fuel with
    | none => none
    | some (none, _) => some []
    | some (some k, cur') => (iter_go B T dir fuel steps cur').map (k :: ·)

/-- Full ordered traversal: `first` (`dir = false`) or `last` (`dir = true`),
then repeated `next` resp. `prev` (stepping direction `!dir`) until NULL. -/
def c3bt_traverse (B : Bitops κ) (T : Tree κ) (dir : Bool) (fuel steps : Nat) :
    Option (List κ) :=
  match tree_extreme T dir fuel with
  | none => none
  | some (none, _) => some []
  | some (some k, cur) => (iter_go B T (!dir) fuel steps cur).map (k :: ·)

/-! ## Split (cell_find_split / cell_split, c3bt.c lines 731-818) -/

/-- The pre-order subtree count of `cell_find_split` (the inner
`while (top >= 0)` stack loop): returns `(bitmap, count)` for the in-cell
subtree rooted at the initial stack contents. -/
def split_scan (c : Cell κ) : Nat → List Nat → Nat → Nat → Option (Nat × Nat)
  | 0, _, _, _ => none
  | _ + 1, [], bmp, cnt => some (bmp, cnt)
  | fuel + 1, n :: rest, bmp, cnt =>
    let bmp := bmp ||| (0x8000 >>> n)
    let c1 := (c.N n).child true
    let c0 := (c.N n).child false
    let s1 := if CHILD_IS_NODE c1 then c1 :: rest else rest
    let s0 := if CHILD_IS_NODE c0 then c0 :: s1 else s1
    let cnt := cnt + (if CHILD_IS_NODE c1 then 1 else 0) +
      (if CHILD_IS_NODE c0 then 1 else 0)
    split_scan c fuel s0 bmp cnt

/-- `cell_find_split`: choose the split node giving the most balanced
partition (returns `(new_root, bitmap)`). -/
def cell_find_split_go (c : Cell κ) :
    List Nat → Nat → Nat → Nat → Option (Nat × Nat)
  | [], _, ret_n, ret_bmp => some (ret_n, ret_bmp)
  | i :: rest, offset, ret_n, ret_bmp =>
    if ¬ CHILD_IS_NODE ((c.N i).child false) && ¬ CHILD_IS_NODE ((c.N i).child true) then
      cell_find_split_go c rest offset ret_n ret_bmp
    else
      match split_scan c 32 [i] 0 1 with
      | none => none
      | some (bmp, count) =>
        let d := ((2 * count : Int) - NODES_PER_CELL).natAbs
        if d = NODES_PER_CELL % 2 then some (i, bmp)
        else if d < offset then cell_find_split_go c rest d i bmp
        else cell_find_split_go c rest offset ret_n ret_bmp

def cell_find_split (c : Cell κ) : Option (Nat × Nat) :=
  cell_find_split_go c ((List.range' 1 (NODES_PER_CELL - 1)).reverse)
    NODES_PER_CELL 0 0

/-- The per-node move of `cell_split`: copy node `i` and its external
children into the new cell `nid`, releasing them from the old cell `id`. -/
def split_move (T : Tree κ) (id nid i : Nat) : Tree κ :=
  let cN := (T.cellAt id).N i
  let T := T.updCell nid (fun nc => nc.setN i cN)
  let moveChild := fun (T : Tree κ) (b : Bool) =>
    let p := cN.child b
    if ¬ CHILD_IS_NODE p then
      let T := if CHILD_IS_CELL p then
                 match ((T.cellAt id).P (p &&& INDEX_MASK)).asCell with
                 | some s => T.updCell s (fun sc => {sc with parent := some nid})
                 | none => T
               else T
      let q := p &&& INDEX_MASK
      let T := T.updCell nid (fun nc => nc.setP q ((T.cellAt id).P q))
      T.updCell id (fun oc => cell_free_ptr oc q)
    else T
  let T := moveChild T false
  let T := moveChild T true
  T.updCell id (fun oc => cell_free_node oc i)

/-- `cell_split`: split a full cell in two; the new cell becomes a sub-cell
of the old one.  Returns `some (false, _)` when `malloc` fails. -/
def cell_split (T : Tree κ) (id : Nat) : Option (Bool × Tree κ) :=
  match cell_malloc T with
  | (none, T') => some (false, T')
  | (some nid, T') =>
    match cell_find_split (T'.cellAt id) with
    | none => none
    | some (new_root, bitmap) =>
      let T2 := (List.range NODES_PER_CELL).foldl
        (fun T i => if bitmap &&& (0x8000 >>> i) != 0 then split_move T id nid i else T)
        T'
      let count := ((List.range NODES_PER_CELL).filter
        (fun i => bitmap &&& (0x8000 >>> i) != 0)).length
      let (p, oc) := cell_alloc_ptr (T2.cellAt id)
      let T3 := T2.setCell id (oc.setP p (.cell nid))
      let anchor := cell_node_parent (T3.cellAt id) new_root
      let T4 := T3.updCell id (fun c =>
        c.setChild (anchor >>> 1) (anchor &&& 1 == 1) (CHILD_CELL_BIT ||| p))
      let T5 := T4.updCell id (fun c => {c with ncount := c.ncount - count})
      let T6 := T5.updCell nid (fun c =>
        cell_free_node (c.setN 0 (c.N new_root)) new_root)
      let T7 := T6.updCell nid (fun c => {c with parent := some id, ncount := count})
      some (true, T7)

/-! ## Push-down (cell_push_down, c3bt.c lines 823-861) -/

/-- The scan condition of `cell_push_down`: node side `b` is a sub-cell
reference, the other side is not an in-cell node (an edge node), and the
sub-cell has fewer than `NODES_PER_CELL` nodes. -/
def pd_eligible (T : Tree κ) (c : Cell κ) (nc : Nat × Bool) : Bool :=
  CHILD_IS_CELL ((c.N nc.1).child nc.2) &&
  ¬ CHILD_IS_NODE ((c.N nc.1).child (!nc.2)) &&
  (match (c.P ((c.N nc.1).child nc.2 &&& INDEX_MASK)).asCell with
   | some s => cell_ncount (T.cellAt s) < NODES_PER_CELL
   | none => false)

/-- The mutation body of `cell_push_down` once the edge node `(n, b)` with
sub-cell `s` has been selected. -/
def pd_apply (T : Tree κ) (id n : Nat) (b : Bool) (s : Nat) : Tree κ :=
  let c := T.cellAt id
  let sibling := (c.N n).child (!b)
      let sub := T.cellAt s
      let (old_root, sub) := cell_alloc_node sub
      let (new_ptr, sub) := cell_alloc_ptr sub
      let sub := {sub with ncount := sub.ncount + 1}
      let np := cell_node_parent c n
      let c := c.setChild (np >>> 1) (np &&& 1 == 1) ((c.N n).child b)
      let sub := sub.setN old_root (sub.N 0)
      let sub := sub.setP new_ptr (c.P (sibling &&& INDEX_MASK))
      let sub := sub.setCbit 0 (c.N n).cbit
      let sub := sub.setChild 0 b old_root
      let sub := sub.setChild 0 (!b) ((sibling &&& FLAGS_MASK) ||| new_ptr)
      let c := cell_free_node c n
      let c := cell_free_ptr c (sibling &&& INDEX_MASK)
      let c := {c with ncount := c.ncount - 1}
      let T := T.setCell id c
      let T := T.setCell s sub
      let T := if CHILD_IS_CELL sibling then
                 match (sub.P new_ptr).asCell with
                 | some sc => T.updCell sc (fun x => {x with parent := some s})
                 | none => T
               else T
      T

/-- `cell_push_down`: move one edge node of a full cell down into its
sub-cell.  Returns `false` (state unchanged) when no eligible pair exists. -/
def cell_push_down (T : Tree κ) (id : Nat) : Bool × Tree κ :=
  let c := T.cellAt id
  match (scanPairs 1 NODES_PER_CELL).find? (pd_eligible T c) with
  | none => (false, T)
  | some (n, b) =>
    match (c.P ((c.N n).child b &&& INDEX_MASK)).asCell with
    | none => (false, T)
    | some s => (true, pd_apply T id n b s)

/-! ## Insertion (c3bt_add, c3bt.c lines 863-970) -/

/-- Result of the `next:` descent of `c3bt_add`: either cross into a
sub-cell, or stop at the insertion point `(upper nid, cid, lower)`. -/
inductive AddDesc where
  | cross (sub : Nat)
  | point (nid : Nat) (cid : Bool) (lower : Nat)

/-- The `next:` in-cell loop of `c3bt_add`: descend guided by the new key,
keeping the deepest ancestor with `cbit ≤ cbit_nr`, stopping below a node
whose `cbit > cbit_nr` or at a user reference. -/
def add_descend (B : Bitops κ) (c : Cell κ) (key : κ) (d : Nat) :
    Nat → Nat → Nat → Bool → Option AddDesc
  | 0, _, _, _ => none
  | fuel + 1, lower, nid, cid =>
    if CHILD_IS_UOBJ lower then some (.point nid cid lower)
    else if ¬ CHILD_IS_NODE lower then none
    else if (c.N lower).cbit > d then some (.point nid cid lower)
    else
      let b := B.bit (c.N lower).cbit key
      let l' := (c.N lower).child b
      if CHILD_IS_CELL l' then
        match (c.P (l' &&& INDEX_MASK)).asCell with
        | some s => some (.cross s)
        | none => none
      else add_descend B c key d fuel l' lower b

/-- The final insertion block of `c3bt_add` (allocate a node and a pointer
slot in the chosen cell and link the new node between `nid` and `lower`;
`nid = INVALID_NODE` inserts as the new cell root). -/
def add_insert (T : Tree κ) (cellId nid : Nat) (cid : Bool) (lower0 d : Nat)
    (bit : Bool) (uobj : κ) : Tree κ :=
  let c := T.cellAt cellId
  let (new_node0, c) := cell_alloc_node c
  let (new_ptr, c) := cell_alloc_ptr c
  let c := {c with ncount := c.ncount + 1}
  let c := c.setP new_ptr (.uobj uobj)
  let nl : Nat × Nat × Cell κ :=
    if nid == INVALID_NODE then (0, new_node0, c.setN new_node0 (c.N 0))
    else (new_node0, lower0, c)
  let new_node := nl.1
  let lower := nl.2.1
  let c := nl.2.2
  let c := c.setCbit new_node d
  let c := if nid != INVALID_NODE then c.setChild nid cid new_node else c
  let c := c.setChild new_node bit (new_ptr ||| CHILD_UOBJ_BIT)
  let c := c.setChild new_node (!bit) lower
  {T.setCell cellId c with n_objects := T.n_objects + 1}

/-- The `goto next` loop of `c3bt_add`: repeat descent / make-room until the
insertion point lies in a cell with a free node slot. -/
def c3bt_add_loop (B : Bitops κ) (uobj : κ) (d : Nat) (bit : Bool) :
    Nat → Tree κ → Nat → Option (Bool × Tree κ)
  | 0, _, _ => none
  | fuel + 1, T, cellId =>
    match add_descend B (T.cellAt cellId) uobj d (NODES_PER_CELL + 1) 0
        INVALID_NODE false with
    | none => none
    | some (.cross sub) => c3bt_add_loop B uobj d bit fuel T sub
    | some (.point nid cid lower) =>
      if cell_ncount (T.cellAt cellId) == NODES_PER_CELL then
        match cell_push_down T cellId with
        | (true, T') => c3bt_add_loop B uobj d bit fuel T' cellId
        | (false, T') =>
          match cell_split T' cellId with
          | none => none
          | some (false, T'') => some (false, T'')
          | some (true, T'') => c3bt_add_loop B uobj d bit fuel T'' cellId
      else some (true, add_insert T cellId nid cid lower d bit uobj)

/-- `c3bt_add`. -/
def c3bt_add (B : Bitops κ) (T : Tree κ) (uobj : κ) (fuel : Nat) :
    Option (Bool × Tree κ) :=
  match T.root with
  | none =>
    match cell_malloc T with
    | (none, T') => some (false, T')
    | (some id, T') =>
      let T'' := T'.updCell id (fun c =>
        ((c.setChild 0 false (CHILD_UOBJ_BIT ||| 0)).setChild 0 true
          (CHILD_CELL_BIT ||| 1)).setP 0 (.uobj uobj))
      some (true, {T'' with root := some id, n_objects := T''.n_objects + 1})
  | some rt =>
    match tree_lookup B T uobj fuel with
    | none => none
    | some (none, _) => none
    | some (some robj, cur) =>
      match B.diff uobj robj with
      | none => some (false, T)
      | some d =>
        let bit := B.bit d uobj
        if T.n_objects == 1 then
          let T' := T.updCell rt (fun c =>
            (((c.setP 1 (.uobj uobj)).setCbit 0 d).setChild 0 bit
              (CHILD_UOBJ_BIT ||| 1)).setChild 0 (!bit) (CHILD_UOBJ_BIT ||| 0))
          some (true, {T' with n_objects := T'.n_objects + 1})
        else
          match cur.cell with
          | none => none
          | some cc =>
            let cn := (T.cellAt cc).N cur.nid
            if d > cn.cbit then
              let lower := cn.child cur.cid
              if cell_ncount (T.cellAt cc) == NODES_PER_CELL then
                match cell_push_down T cc with
                | (true, T') => c3bt_add_loop B uobj d bit fuel T' cc
                | (false, T') =>
                  match cell_split T' cc with
                  | none => none
                  | some (false, T'') => some (false, T'')
                  | some (true, T'') => c3bt_add_loop B uobj d bit fuel T'' cc
              else some (true, add_insert T cc cur.nid cur.cid lower d bit uobj)
            else c3bt_add_loop B uobj d bit fuel T rt

/-! ## Merge (cell_find_anchor / cell_merge, c3bt.c lines 976-1055) -/

/-- `cell_find_anchor`: packed `(nid<<1|cid)` of the reference to `id` in its
parent cell. -/
def cell_find_anchor (T : Tree κ) (id parentId : Nat) : Nat :=
  let par := T.cellAt parentId
  let i := (((List.range (NODES_PER_CELL + 1)).find?
      (fun i => (par.P i).asCell == some id)).getD (NODES_PER_CELL + 1)) |||
    CHILD_CELL_BIT
  ((scanPairs 0 NODES_PER_CELL).find?
      (fun nc => ¬ cell_node_is_vacant par nc.1 && (par.N nc.1).child nc.2 == i)).map
    (fun nc => nc.1 <<< 1 ||| (bif nc.2 then 1 else 0)) |>.getD 18

/-- The `wstack` phase of `cell_merge`: build the full pre-order stack
(`fstack`) of the merged cell's subtree entries. -/
def merge_build (c : Cell κ) : Nat → List Nat → List Nat → Option (List Nat)
  | 0, _, _ => none
  | _ + 1, [], fstack => some fstack
  | fuel + 1, n :: wrest, fstack =>
    let fstack := fstack ++ [n]
    if CHILD_IS_NODE n then
      merge_build c fuel ((c.N n).child true :: (c.N n).child false :: wrest) fstack
    else merge_build c fuel wrest fstack

/-- First index `≥ start` of `fstack` holding a non-`INVALID_NODE` entry
(the `while (fstack[wtop] == INVALID_NODE) wtop++` scans). -/
def merge_find_next (fstack : List Nat) (start : Nat) : Nat :=
  ((List.range' start (fstack.length - start)).find?
    (fun j => fstack.getD j INVALID_NODE ≠ INVALID_NODE)).getD fstack.length

/-- One iteration of the copy loop of `cell_merge` at stack position
`ftop`. -/
def merge_copy_step (cellC : Cell κ) (parentId : Nat)
    (acc : Tree κ × List Nat) (ftop : Nat) : Tree κ × List Nat :=
  let T := acc.1
  let fstack := acc.2
  let n := fstack.getD ftop INVALID_NODE
  if CHILD_IS_NODE n then
    let par := T.cellAt parentId
    let (new_node, par) := cell_alloc_node par
    let par := {par with ncount := par.ncount + 1}
    let par := par.setCbit new_node (cellC.N n).cbit
    let w1 := merge_find_next fstack (ftop + 1)
    let par := par.setChild new_node true (fstack.getD w1 INVALID_NODE)
    let fstack := fstack.set w1 INVALID_NODE
    let w0 := merge_find_next fstack (ftop + 1)
    let par := par.setChild new_node false (fstack.getD w0 INVALID_NODE)
    let fstack := fstack.set w0 INVALID_NODE
    (T.setCell parentId par, fstack.set ftop new_node)
  else
    let par := T.cellAt parentId
    let (new_ptr, par) := cell_alloc_ptr par
    let idx := n &&& INDEX_MASK
    let par := par.setP new_ptr (cellC.P idx)
    let T := T.setCell parentId par
    let T := if CHILD_IS_CELL n then
               match (cellC.P idx).asCell with
               | some sc => T.updCell sc (fun x => {x with parent := some parentId})
               | none => T
             else T
    (T, fstack.set ftop ((n &&& FLAGS_MASK) ||| new_ptr))

/-- `cell_merge`: fold cell `cellId`'s subtree into its parent at `anchor`
and free the cell. -/
def cell_merge (T : Tree κ) (cellId parentId : Nat) (anchor : Nat) :
    Option (Tree κ) :=
  let cellC := T.cellAt cellId
  let T := T.updCell parentId (fun par =>
    cell_free_ptr par ((par.N (anchor >>> 1)).child (anchor &&& 1 == 1) &&& INDEX_MASK))
  match merge_build cellC 32 [0] [] with
  | none => none
  | some fstack =>
    let r := ((List.range fstack.length).reverse).foldl
      (merge_copy_step cellC parentId) (T, fstack)
    let T := r.1.updCell parentId (fun par =>
      par.setChild (anchor >>> 1) (anchor &&& 1 == 1) (r.2.getD 0 INVALID_NODE))
    some (T.freeCell cellId)

/-! ## Deletion (c3bt_remove, c3bt.c lines 1057-1150) -/

/-- The post-deletion tail of `c3bt_remove`: decrement the cell population,
then try merging up into the parent, then try merging up a sub-cell. -/
def sub_merge_try (T : Tree κ) (lc : Nat) : Option (Tree κ) :=
  let c := T.cellAt lc
  match (scanPairs 0 NODES_PER_CELL).find? (fun nc =>
      ¬ cell_node_is_vacant c nc.1 && CHILD_IS_CELL ((c.N nc.1).child nc.2) &&
      (match (c.P ((c.N nc.1).child nc.2 &&& INDEX_MASK)).asCell with
       | some s => cell_ncount c + cell_ncount (T.cellAt s) ≤ NODES_PER_CELL
       | none => false)) with
  | none => some T
  | some (n, b) =>
    match (c.P ((c.N n).child b &&& INDEX_MASK)).asCell with
    | none => some T
    | some s => cell_merge T s lc (n <<< 1 ||| (bif b then 1 else 0))

def remove_tail (T : Tree κ) (lc : Nat) (parent : Option Nat) :
    Option (Tree κ) :=
  let T := T.updCell lc (fun c => {c with ncount := c.ncount - 1})
  match parent with
  | some p =>
    if cell_ncount (T.cellAt lc) + cell_ncount (T.cellAt p) ≤ NODES_PER_CELL then
      cell_merge T lc p (cell_find_anchor T lc p)
    else sub_merge_try T lc
  | none => sub_merge_try T lc

/-- `c3bt_remove`. -/
def c3bt_remove (B : Bitops κ) (T : Tree κ) (uobj : κ) (fuel : Nat) :
    Option (Bool × Tree κ) :=
  match c3bt_locate B T uobj fuel with
  | none => none
  | some (none, _) => some (false, T)
  | some (some _, loc) =>
    match loc.cell with
    | none => none
    | some lc =>
      let parent := (T.cellAt lc).parent
      let T := T.updCell lc (fun c =>
        cell_free_ptr c ((c.N loc.nid).child loc.cid &&& INDEX_MASK))
      if loc.nid == 0 then
        let c := T.cellAt lc
        let sibling := (c.N 0).child (!loc.cid)
        if CHILD_IS_NODE sibling then
          let T := T.setCell lc (cell_free_node (c.setN 0 (c.N sibling)) sibling)
          match remove_tail T lc parent with
          | none => none
          | some T' => some (true, {T' with n_objects := T'.n_objects - 1})
        else if CHILD_IS_UOBJ sibling && parent == none then
          let c := (c.setChild 0 false (CHILD_UOBJ_BIT ||| 0)).setChild 0 true
            (CHILD_CELL_BIT ||| 1)
          let c := (c.setP 0 (c.P (sibling &&& INDEX_MASK))).setP 1 .free
          some (true, {T.setCell lc c with n_objects := T.n_objects - 1})
        else
          match parent with
          | none =>
            let newRoot := (c.P (sibling &&& INDEX_MASK)).asCell
            let T := {T with root := newRoot}
            let T := match newRoot with
                     | some r => T.updCell r (fun x => {x with parent := none})
                     | none => T
            some (true, {T.freeCell lc with n_objects := T.n_objects - 1})
          | some p =>
            let anchor := cell_find_anchor T lc p
            let par := T.cellAt p
            let pap0 := (par.N (anchor >>> 1)).child (anchor &&& 1 == 1) &&& INDEX_MASK
            let par := par.setChild (anchor >>> 1) (anchor &&& 1 == 1) pap0
            let par := par.setP pap0 (c.P (sibling &&& INDEX_MASK))
            let T := T.setCell p par
            let T := if CHILD_IS_CELL sibling then
                       match (c.P (sibling &&& INDEX_MASK)).asCell with
                       | some sc => T.updCell sc (fun x => {x with parent := some p})
                       | none => T
                     else T
            let T := T.updCell p (fun par => par.setChild (anchor >>> 1)
              (anchor &&& 1 == 1) (pap0 ||| (sibling &&& FLAGS_MASK)))
            some (true, {T.freeCell lc with n_objects := T.n_objects - 1})
      else
        let c := T.cellAt lc
        let n := cell_node_parent c loc.nid
        let c := c.setChild (n >>> 1) (n &&& 1 == 1) ((c.N loc.nid).child (!loc.cid))
        let T := T.setCell lc (cell_free_node c loc.nid)
        match remove_tail T lc parent with
        | none => none
        | some T' => some (true, {T' with n_objects := T'.n_objects - 1})

/-! ## Standard bitops (c3bt.c lines 1156-1216) -/

/-- Read byte `i` of a zero-terminated string, modelled as a list of its
bytes before the terminator (reads past the end yield the terminator 0). -/
def sByte (p : List Nat) (i : Nat) : Nat := p.getD i 0

/-- The C `strlen` of such a string. -/
def strlen (p : List Nat) : Nat := p.findIdx (fun b => b == 0)

/-- Leading-zero count within one byte: `__builtin_clz((uint32_t)x) - 24`
for `0 < x < 256`. -/
def clz8 (x : Nat) : Nat :=
  ((List.range 8).find? (fun j => x.testBit (7 - j))).getD 8

/-- `bitops_str`, `req >= 0` mode: bit `req` of the string, MSB-first, 0 for
requests past the end. -/
def bitops_str_bit (p : List Nat) (req : Nat) : Bool :=
  let nbits := strlen p * 8
  if req ≥ nbits then false
  else (sByte p (req / 8)).testBit (7 - req % 8)

/-- The byte loop of `bitops_str` in diff mode (`req = -(nbits+1)`,
represented by the positive `nbits`).  `none` is the C return value `-1`. -/
def bitops_str_diff_go (nbits : Nat) (p q : List Nat) : List Nat → Option Nat
  | [] => none
  | i :: rest =>
    let pi := sByte p i
    let qi := sByte q i
    if pi ||| qi == 0 then none
    else if pi == qi then bitops_str_diff_go nbits p q rest
    else if pi == 0 || qi == 0 then
      let nb := i * 8 + clz8 (pi ^^^ qi)
      if nb ≥ nbits then none else some nb
    else bitops_str_diff_go nbits p q rest

/-- `bitops_str`, diff mode. -/
def bitops_str_diff (nbits : Nat) (p q : List Nat) : Option Nat :=
  bitops_str_diff_go nbits p q (List.range ((nbits + 7) / 8))

/-- The `bitops_str` callback packaged for the tree (key type = STR). -/
def strB (nbits : Nat) : Bitops (List Nat) :=
  ⟨fun i k => bitops_str_bit k i, bitops_str_diff nbits⟩

/-- Modelled from the spec (§4.1): `diff(-(N+1), k1, k2)` returns the index
of the first differing bit between `k1` and `k2`, scanning at most `N` bits
MSB-first, or `-1` (`none`) if they agree on the first `N` bits — where bit
extraction past the end of a string yields 0. -/
def strDiffSpec (nbits : Nat) (p q : List Nat) : Option Nat :=
  (List.range nbits).find? (fun i => bitops_str_bit p i != bitops_str_bit q i)

/-- Fixed-width `Nat` keys with MSB-first bit order: the semantics of the
`bitops_bits` / `bitops_u32` callbacks, used to instantiate the tree for
concrete witnesses (bit `i` of key `k` is bit `W - 1 - i` of the binary
representation; `diff` is the first differing bit index or `none`). -/
def bitsBit (W i k : Nat) : Bool := k.testBit (W - 1 - i)

def bitsDiff (W k1 k2 : Nat) : Option Nat :=
  (List.range W).find? (fun i => bitsBit W i k1 != bitsBit W i k2)

def bitsB (W : Nat) : Bitops Nat := ⟨bitsBit W, bitsDiff W⟩

/-! ## Concrete states

The concrete two-cell state below is the state reached by inserting the
sixteen 6-bit keys 63, 29, 23, 17, 43, 16, 60, 10, 30, 27, 33, 52, 44, 25,
34, 31 (in this order) into an empty tree through `c3bt_add`; it is written
out literally because kernel reduction of a 16-step replay does not share
intermediate states.  Cell 0 (the root cell) is full with 8 nodes; its only
edge node is slot 6 (side 1 a sub-cell reference to cell 1 via pointer slot
1, side 0 the user object 10 via pointer slot 7); cell 1 holds 7 nodes
(slot 6 vacant). -/

def pdCell0 : Cell Nat :=
  ⟨none, 8,
  fun i => match i with
    | 0 => ⟨0, fun b => bif b then 3 else 6⟩
    | 1 => ⟨2, fun b => bif b then 4 else 7⟩
    | 2 => ⟨2, fun b => bif b then 5 else 131⟩
    | 3 => ⟨1, fun b => bif b then 2 else 1⟩
    | 4 => ⟨3, fun b => bif b then 133 else 132⟩
    | 5 => ⟨4, fun b => bif b then 128 else 134⟩
    | 6 => ⟨1, fun b => bif b then 65 else 135⟩
    | 7 => ⟨4, fun b => bif b then 136 else 130⟩
    | _ => default,
  fun i => match i with
    | 0 => .uobj 63
    | 1 => .cell 1
    | 2 => .uobj 33
    | 3 => .uobj 52
    | 4 => .uobj 43
    | 5 => .uobj 44
    | 6 => .uobj 60
    | 7 => .uobj 10
    | 8 => .uobj 34
    | _ => .free⟩

def pdCell1 : Cell Nat :=
  ⟨some 0, 7,
  fun i => match i with
    | 0 => ⟨2, fun b => bif b then 1 else 2⟩
    | 1 => ⟨3, fun b => bif b then 7 else 3⟩
    | 2 => ⟨3, fun b => bif b then 130 else 4⟩
    | 3 => ⟨4, fun b => bif b then 128 else 132⟩
    | 4 => ⟨5, fun b => bif b then 131 else 133⟩
    | 5 => ⟨5, fun b => bif b then 134 else 136⟩
    | 6 => ⟨0, fun b => bif b then 0 else 63⟩
    | 7 => ⟨4, fun b => bif b then 5 else 129⟩
    | _ => default,
  fun i => match i with
    | 0 => .uobj 27
    | 1 => .uobj 29
    | 2 => .uobj 23
    | 3 => .uobj 17
    | 4 => .uobj 25
    | 5 => .uobj 16
    | 6 => .uobj 31
    | 7 => .free
    | 8 => .uobj 30
    | _ => .free⟩

def pdS : Tree Nat :=
  ⟨some 0,
   fun i => match i with
     | 0 => some pdCell0
     | 1 => some pdCell1
     | _ => none,
   2, 16, []⟩

/-- The pair `cell_push_down` selects: the first eligible (edge node,
roomy sub-cell) pair in scan order over node slots 1..7. -/
def pd_choice (T : Tree κ) (id : Nat) : Option (Nat × Bool) :=
  (scanPairs 1 NODES_PER_CELL).find? (pd_eligible T (T.cellAt id))

/-- Number of in-cell nodes in the subtree hanging below child byte `x`
(fuel bounds the recursion depth; a depth-9 budget covers any well-formed
cell). -/
def inCellCount (c : Cell κ) : Nat → Nat → Nat
  | 0, _ => 0
  | fuel + 1, x =>
    if CHILD_IS_NODE x then
      1 + inCellCount c fuel ((c.N x).child false) +
        inCellCount c fuel ((c.N x).child true)
    else 0

/-- The in-cell subtree below child byte `x` is a proper tree: every node
reference hits a live (non-vacant) slot and the depth is below the fuel. -/
def inCellTree (c : Cell κ) : Nat → Nat → Bool
  | 0, _ => false
  | fuel + 1, x =>
    if CHILD_IS_NODE x then
      ¬ cell_node_is_vacant c x && inCellTree c fuel ((c.N x).child false) &&
        inCellTree c fuel ((c.N x).child true)
    else true

/-- The entries of the subtree below child byte `x`, in the order in which
the wstack phase of `cell_merge` appends them to `fstack` (pre-order, side-1
subtree before side-0). -/
def enumFrom (c : Cell κ) : Nat → Nat → List Nat
  | 0, _ => []
  | fuel + 1, x =>
    if CHILD_IS_NODE x then
      x :: (enumFrom c fuel ((c.N x).child true) ++
        enumFrom c fuel ((c.N x).child false))
    else [x]

/-- A two-cell state entering the deletion tail: the root cell 0 (1 node,
child 0 the record 5, child 1 the sub-cell 1) and cell 1, whose record 14
was just unlinked (its topology holds 1 node with records 12 and 13, while
its population count still reads 2, as `c3bt_remove` decrements it inside
`remove_tail`). -/
def mgCell0 : Cell Nat :=
  ⟨none, 1,
  fun i => match i with
    | 0 => ⟨0, fun b => bif b then 65 else 128⟩
    | _ => default,
  fun i => match i with
    | 0 => .uobj 5
    | 1 => .cell 1
    | _ => .free⟩

def mgCell1 : Cell Nat :=
  ⟨some 0, 2,
  fun i => match i with
    | 0 => ⟨3, fun b => bif b then 129 else 128⟩
    | _ => default,
  fun i => match i with
    | 0 => .uobj 12
    | 1 => .uobj 13
    | _ => .free⟩

def mgT : Tree Nat :=
  ⟨some 0,
   fun i => match i with
     | 0 => some mgCell0
     | 1 => some mgCell1
     | _ => none,
   2, 3, []⟩

/-! ## Theorems -/

/-! ### Arena and cell setter lemmas -/

theorem Tree.cellAt_setCell_self (T : Tree κ) (i : Nat) (c : Cell κ) :
    (T.setCell i c).cellAt i = c := by
  simp [Tree.setCell, Tree.cellAt]

theorem Tree.cellAt_setCell_of_ne (T : Tree κ) {i j : Nat} (c : Cell κ)
    (h : j ≠ i) : (T.setCell i c).cellAt j = T.cellAt j := by
  simp [Tree.setCell, Tree.cellAt, Function.update_noteq h]

theorem Tree.cellAt_setCell (T : Tree κ) (i j : Nat) (c : Cell κ) :
    (T.setCell i c).cellAt j = if j = i then c else T.cellAt j := by
  by_cases h : j = i
  · subst h; simp [Tree.cellAt_setCell_self]
  · simp [h, Tree.cellAt_setCell_of_ne _ _ h]

theorem cell_ncount_setN (c : Cell κ) (i : Nat) (nd : Node) :
    cell_ncount (c.setN i nd) = cell_ncount c := rfl

theorem cell_ncount_setP (c : Cell κ) (i : Nat) (s : PSlot κ) :
    cell_ncount (c.setP i s) = cell_ncount c := rfl

theorem cell_ncount_setChild (c : Cell κ) (i : Nat) (b : Bool) (x : Nat) :
    cell_ncount (c.setChild i b x) = cell_ncount c := rfl

theorem cell_ncount_setCbit (c : Cell κ) (i v : Nat) :
    cell_ncount (c.setCbit i v) = cell_ncount c := rfl

theorem cell_ncount_free_node (c : Cell κ) (i : Nat) :
    cell_ncount (cell_free_node c i) = cell_ncount c := rfl

theorem cell_ncount_free_ptr (c : Cell κ) (i : Nat) :
    cell_ncount (cell_free_ptr c i) = cell_ncount c := rfl

theorem cell_ncount_alloc_node (c : Cell κ) :
    cell_ncount (cell_alloc_node c).2 = cell_ncount c := rfl

theorem cell_ncount_alloc_ptr (c : Cell κ) :
    cell_ncount (cell_alloc_ptr c).2 = cell_ncount c := rfl

/-- The push-down mutation adds exactly one node to the population counter
of the target sub-cell. -/
theorem pd_apply_ncount (T : Tree κ) (id n : Nat) (b : Bool) (s : Nat) :
    cell_ncount ((pd_apply T id n b s).cellAt s) = cell_ncount (T.cellAt s) + 1 := by
  unfold pd_apply
  simp only []
  split
  · split
    · rename_i sc _
      by_cases hsc : s = sc
      · subst hsc
        simp only [Tree.updCell, Tree.cellAt_setCell_self, cell_ncount]
        rfl
      · rw [Tree.updCell, Tree.cellAt_setCell_of_ne _ _ hsc, Tree.cellAt_setCell_self]
        rfl
    · rw [Tree.cellAt_setCell_self]
      rfl
  · rw [Tree.cellAt_setCell_self]
    rfl

/-- **C7** (amended): push-down on a full cell scans node slots 1..7 (the
cell root is never pushed down) for an edge node whose sub-cell has fewer
than `CAPACITY = 8` nodes — one free node slot suffices, not the two free
slots (`< CAPACITY - 1 = 7`) of the original claim.  It succeeds iff such a
pair exists, leaves the tree unchanged when it fails, and on success the
first eligible pair's sub-cell (which had at most 7 nodes) gains exactly
one node. -/
theorem C7_push_down_amended (T : Tree κ) (id : Nat) :
    ((cell_push_down T id).1 = true ↔
      ∃ nc ∈ scanPairs 1 NODES_PER_CELL, pd_eligible T (T.cellAt id) nc = true) ∧
    ((cell_push_down T id).1 = false → (cell_push_down T id).2 = T) ∧
    (∀ nc s, pd_choice T id = some nc →
      ((T.cellAt id).P (((T.cellAt id).N nc.1).child nc.2 &&& INDEX_MASK)).asCell
        = some s →
      cell_ncount (T.cellAt s) < NODES_PER_CELL ∧
      cell_ncount ((cell_push_down T id).2.cellAt s) =
        cell_ncount (T.cellAt s) + 1) := by
  have hch : pd_choice T id =
      (scanPairs 1 NODES_PER_CELL).find? (pd_eligible T (T.cellAt id)) := rfl
  cases hf : (scanPairs 1 NODES_PER_CELL).find? (pd_eligible T (T.cellAt id)) with
  | none =>
    have hcp : cell_push_down T id = (false, T) := by
      simp only [cell_push_down, hf]
    refine ⟨?_, fun _ => by rw [hcp], ?_⟩
    · constructor
      · intro h
        rw [hcp] at h
        cases h
      · rintro ⟨nc, hmem, helig⟩
        exact absurd helig (by simpa using List.find?_eq_none.mp hf nc hmem)
    · intro nc s hc
      rw [hch, hf] at hc
      cases hc
  | some nb =>
    obtain ⟨n, b⟩ := nb
    have helig := List.find?_some hf
    have hmem := List.mem_of_find?_eq_some hf
    cases hAs : ((T.cellAt id).P (((T.cellAt id).N n).child b &&& INDEX_MASK)).asCell with
    | none =>
      exfalso
      unfold pd_eligible at helig
      rw [hAs] at helig
      simp at helig
    | some s0 =>
      have hlt : cell_ncount (T.cellAt s0) < NODES_PER_CELL := by
        unfold pd_eligible at helig
        rw [hAs] at helig
        simp only [Bool.and_eq_true, decide_eq_true_eq] at helig
        exact helig.2
      have hcp : cell_push_down T id = (true, pd_apply T id n b s0) := by
        simp only [cell_push_down, hf, hAs]
      refine ⟨⟨fun _ => ⟨(n, b), hmem, helig⟩, fun _ => by rw [hcp]⟩, ?_, ?_⟩
      · intro hfalse
        rw [hcp] at hfalse
        cases hfalse
      · intro nc s hc hAs2
        rw [hch, hf] at hc
        injection hc with hc'
        subst hc'
        rw [hAs] at hAs2
        injection hAs2 with hs
        subst hs
        exact ⟨hlt, by rw [hcp]; exact pd_apply_ncount T id n b s0⟩

/-- **C7** (counterexample to the claim as stated): a reachable state (the
16 6-bit keys listed above inserted from empty) whose full cell 0 has
exactly one edge node
(slot 6, side 1), whose sub-cell (cell 1) holds exactly 7 = CAPACITY − 1
nodes.  Per the claim no eligible pair exists (the sub-cell does not have
fewer than 7 nodes), so push-down must fail; the code instead relocates the
edge node into that sub-cell, growing it to 8 nodes. -/
theorem C7_counterexample :
    cell_ncount (pdS.cellAt 0) = 8 ∧
    ((scanPairs 0 NODES_PER_CELL).filter (fun nc =>
        CHILD_IS_CELL (((pdS.cellAt 0).N nc.1).child nc.2) &&
        ¬ CHILD_IS_NODE (((pdS.cellAt 0).N nc.1).child (!nc.2)))) = [(6, true)] ∧
    ((pdS.cellAt 0).P (((pdS.cellAt 0).N 6).child true &&& INDEX_MASK)).asCell
      = some 1 ∧
    cell_ncount (pdS.cellAt 1) = 7 ∧
    (cell_push_down pdS 0).1 = true ∧
    cell_ncount ((cell_push_down pdS 0).2.cellAt 1) = 8 := by decide

/-- **C7** (witness): the amended theorem applied to the concrete state of
the counterexample: the chosen sub-cell of the push-down in `pdS` had room
(7 < 8 nodes) and gains exactly one node. -/
theorem C7_push_down_amended_witness :
    cell_ncount (pdS.cellAt 1) < NODES_PER_CELL ∧
    cell_ncount ((cell_push_down pdS 0).2.cellAt 1) =
      cell_ncount (pdS.cellAt 1) + 1 :=
  (C7_push_down_amended pdS 0).2.2 (6, true) 1 (by decide) (by decide)

/-- **C3** (code_bug): the claim states that the string bit-extraction
callback in diff mode returns the index of the first differing bit between
`k1` and `k2` (scanning at most `N` bits MSB-first) and `-1` exactly when
they agree on the first `N` bits.  The code disagrees: when the first
differing byte position holds two *nonzero* bytes, the loop in `bitops_str`
falls through and continues, so `"abc"` and `"abd"` are reported equal
(`-1`) although their first differing bit is 21.  Consequently the claim's
insertion scenario also fails: after adding `"abc"` and `"abc1"`, adding
`"abcd"` is rejected as a duplicate (the lookup candidate is `"abc1"` and
`diff("abcd", "abc1") = -1`).  The parts of the claim that do hold on the
code: `diff("abc", "abc1") = 26`. -/
theorem C3_bitops_str_diff_code_bug :
    bitops_str_diff 256 [97, 98, 99] [97, 98, 100] = none ∧
    strDiffSpec 256 [97, 98, 99] [97, 98, 100] = some 21 ∧
    bitops_str_diff 256 [97, 98, 99] [97, 98, 99, 49] = some 26 ∧
    strDiffSpec 256 [97, 98, 99] [97, 98, 99, 49] = some 26 ∧
    (((c3bt_add (strB 256) (Tree.init (List Nat)) [97, 98, 99] 64).bind
        (fun r => c3bt_add (strB 256) r.2 [97, 98, 99, 49] 64)).bind
        (fun r => c3bt_add (strB 256) r.2 [97, 98, 99, 100] 64)).map Prod.fst
      = some false := by
  refine ⟨by decide, by decide, by decide, by decide, by decide⟩

/-! ### Merge-up population accounting (claim C8) -/

theorem inCellTree_congr {c c' : Cell κ} (h : c.N = c'.N) :
    ∀ d x, inCellTree c d x = inCellTree c' d x := by
  intro d
  induction d with
  | zero => intro x; rfl
  | succ d ih =>
    intro x
    simp only [inCellTree, cell_node_is_vacant, h, ih]

theorem inCellCount_congr {c c' : Cell κ} (h : c.N = c'.N) :
    ∀ d x, inCellCount c d x = inCellCount c' d x := by
  intro d
  induction d with
  | zero => intro x; rfl
  | succ d ih =>
    intro x
    simp only [inCellCount, h, ih]

theorem inCellTree_children (c : Cell κ) {d x : Nat}
    (hx : inCellTree c (d + 1) x = true) (hn : CHILD_IS_NODE x = true) :
    inCellTree c d ((c.N x).child false) = true ∧
    inCellTree c d ((c.N x).child true) = true := by
  rw [inCellTree, hn, if_pos rfl] at hx
  simp only [Bool.and_eq_true] at hx
  exact ⟨hx.1.2, hx.2⟩

theorem enumFrom_length (c : Cell κ) :
    ∀ d x, inCellTree c d x = true →
      (enumFrom c d x).length = 2 * inCellCount c d x + 1 := by
  intro d
  induction d with
  | zero => intro x hx; simp [inCellTree] at hx
  | succ d ih =>
    intro x hx
    by_cases hn : CHILD_IS_NODE x = true
    · obtain ⟨h0, h1⟩ := inCellTree_children c hx hn
      simp [enumFrom, inCellCount, hn, ih _ h0, ih _ h1]
      omega
    · simp only [enumFrom, inCellCount, Bool.not_eq_true] at hn ⊢
      simp [hn]

theorem enumFrom_nodes (c : Cell κ) :
    ∀ d x, inCellTree c d x = true →
      ((enumFrom c d x).filter (fun y => CHILD_IS_NODE y)).length =
        inCellCount c d x := by
  intro d
  induction d with
  | zero => intro x hx; simp [inCellTree] at hx
  | succ d ih =>
    intro x hx
    by_cases hn : CHILD_IS_NODE x = true
    · obtain ⟨h0, h1⟩ := inCellTree_children c hx hn
      simp [enumFrom, inCellCount, hn, List.filter_cons, List.filter_append,
        ih _ h0, ih _ h1]
      omega
    · simp only [enumFrom, inCellCount, Bool.not_eq_true] at hn ⊢
      simp [hn]

theorem enumFrom_length_pos (c : Cell κ) (d x : Nat)
    (hx : inCellTree c d x = true) : 1 ≤ (enumFrom c d x).length := by
  cases d with
  | zero => simp [inCellTree] at hx
  | succ d =>
    by_cases hn : CHILD_IS_NODE x = true <;> simp [enumFrom, hn]

theorem merge_build_spec (c : Cell κ) :
    ∀ (fuel : Nat) (stack : List (Nat × Nat)) (acc : List Nat),
      (∀ p ∈ stack, inCellTree c p.2 p.1 = true) →
      (stack.map (fun p => (enumFrom c p.2 p.1).length)).sum < fuel →
      merge_build c fuel (stack.map Prod.fst) acc =
        some (acc ++ (stack.map (fun p => enumFrom c p.2 p.1)).flatten) := by
  intro fuel
  induction fuel with
  | zero => intro stack acc _ hs; omega
  | succ fuel ih =>
    rintro (_ | ⟨⟨x, d⟩, rest⟩) acc hv hs
    · simp [merge_build]
    · have hx : inCellTree c d x = true := hv (x, d) (List.mem_cons_self _ _)
      cases d with
      | zero => simp [inCellTree] at hx
      | succ d =>
        simp only [List.map_cons, List.sum_cons] at hs
        by_cases hn : CHILD_IS_NODE x = true
        · obtain ⟨h0, h1⟩ := inCellTree_children c hx hn
          have hlen : (enumFrom c (d + 1) x).length =
              1 + ((enumFrom c d ((c.N x).child true)).length +
                (enumFrom c d ((c.N x).child false)).length) := by
            simp [enumFrom, hn]
            omega
          have hrec := ih (((c.N x).child true, d) :: ((c.N x).child false, d) :: rest)
            (acc ++ [x])
            (by
              rintro p hp
              rcases List.mem_cons.mp hp with h | hp
              · subst h; exact h1
              rcases List.mem_cons.mp hp with h | hp
              · subst h; exact h0
              exact hv p (List.mem_cons_of_mem _ hp))
            (by
              simp only [List.map_cons, List.sum_cons]
              omega)
          simp only [List.map_cons] at hrec
          simp only [List.map_cons, merge_build, hn, if_pos rfl]
          rw [hrec]
          simp [enumFrom, hn, List.append_assoc]
        · have hrec := ih rest (acc ++ [x])
            (fun p hp => hv p (List.mem_cons_of_mem _ hp))
            (by
              have hone : (enumFrom c (d + 1) x).length = 1 := by simp [enumFrom, hn]
              omega)
          have hstep : merge_build c (fuel + 1) (x :: List.map Prod.fst rest) acc =
              merge_build c fuel (List.map Prod.fst rest) (acc ++ [x]) := by
            simp [merge_build, hn]
          rw [List.map_cons, hstep, hrec]
          simp [enumFrom, hn, List.append_assoc]

theorem getD_set_preserve (l : List Nat) (w q v d : Nat)
    (h : q ≠ w ∨ l.length ≤ w) : (l.set w v).getD q d = l.getD q d := by
  rcases h with h | h
  · simp [List.getD_eq_getElem?_getD, List.getElem?_set_ne (Ne.symm h)]
  · rw [List.set_eq_of_length_le h]

theorem merge_find_next_ge (l : List Nat) (s : Nat) :
    s ≤ merge_find_next l s ∨ merge_find_next l s = l.length := by
  unfold merge_find_next
  cases hf : (List.range' s (l.length - s)).find?
      (fun j => l.getD j INVALID_NODE ≠ INVALID_NODE) with
  | none => right; rfl
  | some j =>
    left
    have hmem := List.mem_of_find?_eq_some hf
    simpa using (List.mem_range'_1.mp hmem).1

theorem merge_copy_step_ncount (cellC : Cell κ) (parentId : Nat) (T : Tree κ)
    (fstack : List Nat) (p : Nat) :
    cell_ncount ((merge_copy_step cellC parentId (T, fstack) p).1.cellAt parentId) =
      cell_ncount (T.cellAt parentId) +
        (if CHILD_IS_NODE (fstack.getD p INVALID_NODE) then 1 else 0) := by
  by_cases hn : CHILD_IS_NODE (fstack.getD p INVALID_NODE) = true
  · simp only [merge_copy_step, hn, if_true]
    rw [Tree.cellAt_setCell_self]
    rfl
  · simp only [Bool.not_eq_true] at hn
    simp only [merge_copy_step, hn, Bool.false_eq_true, if_false]
    by_cases hc : CHILD_IS_CELL (fstack.getD p INVALID_NODE) = true
    · simp only [hc, if_true]
      cases hAs : (cellC.P (fstack.getD p INVALID_NODE &&& INDEX_MASK)).asCell with
      | none =>
        rw [Tree.cellAt_setCell_self]
        rfl
      | some sc =>
        by_cases hsc : parentId = sc
        · subst hsc
          simp only [Tree.updCell, Tree.cellAt_setCell_self]
          rfl
        · simp only [Tree.updCell]
          rw [Tree.cellAt_setCell_of_ne _ _ hsc, Tree.cellAt_setCell_self]
          rfl
    · simp only [Bool.not_eq_true] at hc
      simp only [hc, Bool.false_eq_true, if_false]
      rw [Tree.cellAt_setCell_self]
      rfl

theorem merge_copy_step_agree (cellC : Cell κ) (parentId : Nat) (T : Tree κ)
    (fstack : List Nat) (p q : Nat) (h : q < p) :
    (merge_copy_step cellC parentId (T, fstack) p).2.getD q INVALID_NODE =
      fstack.getD q INVALID_NODE := by
  by_cases hn : CHILD_IS_NODE (fstack.getD p INVALID_NODE) = true
  · simp only [merge_copy_step, hn, if_true]
    rw [getD_set_preserve _ _ _ _ _ (Or.inl (by omega))]
    rcases merge_find_next_ge (fstack.set (merge_find_next fstack (p + 1)) INVALID_NODE)
        (p + 1) with hw | hw
    · rw [getD_set_preserve _ _ _ _ _ (Or.inl (by omega))]
      rcases merge_find_next_ge fstack (p + 1) with hw1 | hw1
      · exact getD_set_preserve _ _ _ _ _ (Or.inl (by omega))
      · exact getD_set_preserve _ _ _ _ _ (Or.inr (le_of_eq hw1.symm))
    · rw [getD_set_preserve _ _ _ _ _ (Or.inr (le_of_eq hw.symm))]
      rcases merge_find_next_ge fstack (p + 1) with hw1 | hw1
      · exact getD_set_preserve _ _ _ _ _ (Or.inl (by omega))
      · exact getD_set_preserve _ _ _ _ _ (Or.inr (le_of_eq hw1.symm))
  · simp only [Bool.not_eq_true] at hn
    simp only [merge_copy_step, hn, Bool.false_eq_true, if_false]
    exact getD_set_preserve _ _ _ _ _ (Or.inl (by omega))

theorem merge_copy_fold_count (cellC : Cell κ) (parentId : Nat)
    (fstack0 : List Nat) :
    ∀ (ps : List Nat), List.Pairwise (· > ·) ps →
      ∀ (T : Tree κ) (fstack : List Nat),
        (∀ q ∈ ps, fstack.getD q INVALID_NODE = fstack0.getD q INVALID_NODE) →
        cell_ncount
            ((ps.foldl (merge_copy_step cellC parentId) (T, fstack)).1.cellAt parentId) =
          cell_ncount (T.cellAt parentId) +
            (ps.filter
              (fun q => CHILD_IS_NODE (fstack0.getD q INVALID_NODE))).length := by
  intro ps
  induction ps with
  | nil => intro _ T fstack _; simp
  | cons p ps ih =>
    intro hpw T fstack hag
    obtain ⟨hgt, hpw'⟩ := List.pairwise_cons.mp hpw
    rw [List.foldl_cons]
    have hstep : merge_copy_step cellC parentId (T, fstack) p =
        ((merge_copy_step cellC parentId (T, fstack) p).1,
         (merge_copy_step cellC parentId (T, fstack) p).2) := rfl
    rw [hstep, ih hpw' _ _ (fun q hq => by
      rw [merge_copy_step_agree _ _ _ _ _ _ (hgt q hq)]
      exact hag q (List.mem_cons_of_mem _ hq))]
    rw [merge_copy_step_ncount, hag p (List.mem_cons_self _ _)]
    rw [List.filter_cons]
    by_cases hb : CHILD_IS_NODE (fstack0.getD p INVALID_NODE) = true
    · simp only [hb, if_true, List.length_cons]
      omega
    · simp only [Bool.not_eq_true] at hb
      simp only [hb, Bool.false_eq_true, if_false]
      omega

theorem filter_range_getD (l : List Nat) (P : Nat → Bool) (d : Nat) :
    ((List.range l.length).filter (fun q => P (l.getD q d))).length =
      (l.filter P).length := by
  induction l using List.reverseRecOn with
  | nil => simp
  | append_singleton l a ih =>
    rw [List.length_append]
    simp only [List.length_cons, List.length_nil]
    rw [List.range_succ, List.filter_append, List.length_append,
      List.filter_append, List.length_append]
    have h1 : (List.range l.length).filter (fun q => P ((l ++ [a]).getD q d)) =
        (List.range l.length).filter (fun q => P (l.getD q d)) := by
      apply List.filter_congr
      intro q hq
      rw [List.getD_append _ _ _ _ (List.mem_range.mp hq)]
    have h2 : (l ++ [a]).getD l.length d = a := by
      rw [List.getD_append_right _ _ _ _ (le_refl _), Nat.sub_self]
      rfl
    rw [h1, ih]
    have h3 : List.filter (fun q => P ((l ++ [a]).getD q d)) [l.length] =
        List.filter (fun _ => P a) [l.length] := by
      apply List.filter_congr
      intro q hq
      simp only [List.mem_singleton] at hq
      subst hq
      rw [h2]
    rw [h3]
    by_cases hPa : P a = true
    · simp [hPa, List.filter]
    · simp only [Bool.not_eq_true] at hPa
      simp [hPa, List.filter]

theorem Tree.cells_freeCell_self (T : Tree κ) (i : Nat) :
    (T.freeCell i).cells i = none := by
  simp [Tree.freeCell]

theorem Tree.cellAt_freeCell_of_ne (T : Tree κ) {i j : Nat} (h : j ≠ i) :
    (T.freeCell i).cellAt j = T.cellAt j := by
  simp [Tree.freeCell, Tree.cellAt, Function.update_noteq h]

/-- The population accounting of `cell_merge`: when the merged cell's
in-cell topology is a proper tree whose node count matches its population
counter (and fits a cell), the merge succeeds, frees the cell, and grows
the parent's population by exactly the merged cell's population. -/
theorem cell_merge_ncount (T : Tree κ) (cellId parentId anchor : Nat)
    (hne : parentId ≠ cellId)
    (hT : inCellTree (T.cellAt cellId) (NODES_PER_CELL + 1) 0 = true)
    (hC : inCellCount (T.cellAt cellId) (NODES_PER_CELL + 1) 0 =
      cell_ncount (T.cellAt cellId))
    (hb : cell_ncount (T.cellAt cellId) ≤ NODES_PER_CELL) :
    ∃ T', cell_merge T cellId parentId anchor = some T' ∧
      T'.cells cellId = none ∧
      cell_ncount (T'.cellAt parentId) =
        cell_ncount (T.cellAt parentId) + cell_ncount (T.cellAt cellId) := by
  have hlen := enumFrom_length (T.cellAt cellId) _ _ hT
  have hbuild := merge_build_spec (T.cellAt cellId) 32 [(0, NODES_PER_CELL + 1)] []
    (by
      rintro p hp
      simp only [List.mem_singleton] at hp
      subst hp
      exact hT)
    (by
      simp only [List.map_cons, List.map_nil, List.sum_cons, List.sum_nil]
      rw [hlen, hC]
      simp only [NODES_PER_CELL] at hb ⊢
      omega)
  simp only [List.map_cons, List.map_nil, List.flatten_cons, List.flatten_nil,
    List.append_nil, List.nil_append] at hbuild
  simp only [cell_merge]
  rw [hbuild]
  refine ⟨_, rfl, ?_, ?_⟩
  · exact Tree.cells_freeCell_self _ _
  · have hfold := merge_copy_fold_count (T.cellAt cellId) parentId
      (enumFrom (T.cellAt cellId) (NODES_PER_CELL + 1) 0)
      ((List.range (enumFrom (T.cellAt cellId) (NODES_PER_CELL + 1) 0).length).reverse)
      (by
        rw [List.pairwise_reverse]
        exact List.pairwise_lt_range _)
      (T.updCell parentId (fun par =>
        cell_free_ptr par ((par.N (anchor >>> 1)).child (anchor &&& 1 == 1) &&& INDEX_MASK)))
      (enumFrom (T.cellAt cellId) (NODES_PER_CELL + 1) 0)
      (fun _ _ => rfl)
    simp only [Tree.updCell] at hfold
    rw [Tree.cellAt_freeCell_of_ne _ hne]
    simp only [Tree.updCell]
    rw [Tree.cellAt_setCell_self, cell_ncount_setChild]
    rw [hfold]
    rw [List.filter_reverse, List.length_reverse, filter_range_getD,
      enumFrom_nodes _ _ _ hT, hC]
    rw [Tree.cellAt_setCell_self, cell_ncount_free_ptr]

/-- **C8** (confirmed): in the deletion tail of `c3bt_remove` (entered
whenever the deletion leaves the modified cell alive; `remove_tail` first
performs the population decrement), if the cell has a parent `p` and the
post-deletion populations satisfy `cell + parent ≤ 8`, then merge-up is
performed: the modified cell is merged into its parent and freed, and the
parent's resulting population is exactly the sum — in particular at most
8, so the parent cell remains well-formed.  The two structural hypotheses
say the modified cell's in-cell topology is a proper tree whose node count
matches its (about to be decremented) population counter, which invariant
I1 guarantees for every reachable state. -/
theorem C8_remove_merge_up (T : Tree κ) (lc p : Nat) (hne : p ≠ lc)
    (hsum : (cell_ncount (T.cellAt lc) - 1) + cell_ncount (T.cellAt p) ≤
      NODES_PER_CELL)
    (hT : inCellTree (T.cellAt lc) (NODES_PER_CELL + 1) 0 = true)
    (hC : inCellCount (T.cellAt lc) (NODES_PER_CELL + 1) 0 =
      cell_ncount (T.cellAt lc) - 1) :
    ∃ T', remove_tail T lc (some p) = some T' ∧
      T'.cells lc = none ∧
      cell_ncount (T'.cellAt p) =
        cell_ncount (T.cellAt p) + (cell_ncount (T.cellAt lc) - 1) ∧
      cell_ncount (T'.cellAt p) ≤ NODES_PER_CELL := by
  set T1 := T.updCell lc (fun c => {c with ncount := c.ncount - 1}) with hT1
  have hAtLc : T1.cellAt lc =
      {T.cellAt lc with ncount := (T.cellAt lc).ncount - 1} := by
    rw [hT1]
    simp only [Tree.updCell]
    rw [Tree.cellAt_setCell_self]
  have hAtP : T1.cellAt p = T.cellAt p := by
    rw [hT1]
    simp only [Tree.updCell]
    exact Tree.cellAt_setCell_of_ne _ _ hne
  have hN : (T1.cellAt lc).N = (T.cellAt lc).N := by
    rw [hAtLc]
  have hNC : cell_ncount (T1.cellAt lc) = cell_ncount (T.cellAt lc) - 1 := by
    rw [hAtLc]
    rfl
  have hcond : cell_ncount (T1.cellAt lc) + cell_ncount (T1.cellAt p) ≤
      NODES_PER_CELL := by
    rw [hNC, hAtP]
    exact hsum
  have hmerge := cell_merge_ncount T1 lc p (cell_find_anchor T1 lc p) hne
    (by
      rw [inCellTree_congr hN]
      exact hT)
    (by
      rw [inCellCount_congr hN, hNC]
      exact hC)
    (by
      rw [hNC]
      simp only [NODES_PER_CELL] at hsum ⊢
      omega)
  obtain ⟨T', hTm, hfree, hcount⟩ := hmerge
  rw [hAtP, hNC] at hcount
  refine ⟨T', ?_, hfree, hcount, ?_⟩
  · simp only [remove_tail]
    rw [← hT1, if_pos hcond, hTm]
  · rw [hcount]
    simp only [NODES_PER_CELL] at hsum ⊢
    omega

/-- **C8** (witness): the theorem applied to the concrete two-cell state
`mgT`: removing a record from cell 1 (populations 1 + 1 after the
decrement) merges cell 1 into the root cell, whose population becomes 2. -/
theorem C8_remove_merge_up_witness :
    ∃ T', remove_tail mgT 1 (some 0) = some T' ∧
      T'.cells 1 = none ∧
      cell_ncount (T'.cellAt 0) =
        cell_ncount (mgT.cellAt 0) + (cell_ncount (mgT.cellAt 1) - 1) ∧
      cell_ncount (T'.cellAt 0) ≤ NODES_PER_CELL :=
  C8_remove_merge_up mgT 1 0 (by decide) (by decide) (by decide) (by decide)

end C3BT
